import Mathlib

/-!
Verification of the stravadash core: a shallow embedding of the
activity-statistics engine (`app/stats.py`), the cache-key generator
(`app/cache.py`), the date-range parser (`app/utils.py`), the HTTP client
retry loop (`app/strava_api.py`, `StravaAPI._make_request`) and the
time-cursor pagination driver (`app/routes/api.py`, `fetch_all_activities`).

Conventions of the embedding:
* Strava activity records (Python dicts) become the `Activity` structure;
  a field read with `dict.get(key, default)` in the source becomes an
  `Option` field read with `Option.getD`.
* `start_date` strings are modelled as already-parsed Unix timestamps
  (`Option Int`); a missing key or an empty/unparseable string is `none`.
* Python floats become exact rationals (`ℚ`); all the arithmetic the
  claims touch (sums, comparisons, divisions) is exact in the source's
  intent and is modelled exactly.
* Timestamps and `datetime` values are `Int` seconds since the Unix epoch;
  Python's `//` and `%` (floor division, floor modulo) coincide with
  Lean's `Int` `/` and `%` for the positive divisors used here.
* The HTTP layer is modelled against an oracle describing the outcome of
  each physical attempt, and the pagination driver against an oracle
  giving the page returned for each (call index, `before` param) pair.
-/

/-- An activity record as returned by the Strava API and consumed by
`app/stats.py` / `app/routes/api.py`.  Fields the verified code reads via
`dict.get` are `Option`s (absent key = `none`); `start_date` holds the
parsed Unix timestamp of the `"%Y-%m-%dT%H:%M:%SZ"` string. -/
structure Activity where
  atype : Option String
  distance : Option ℚ
  moving_time : Option ℚ
  total_elevation_gain : Option ℚ
  start_date : Option Int
deriving DecidableEq

/-- `activity.get("distance", 0)` from `app/stats.py`. -/
def distOf (a : Activity) : ℚ := a.distance.getD 0

/-- `activity.get("moving_time", 0)` from `app/stats.py`. -/
def timeOf (a : Activity) : ℚ := a.moving_time.getD 0

/-- `activity.get("total_elevation_gain", 0)` from `app/stats.py`. -/
def elevOf (a : Activity) : ℚ := a.total_elevation_gain.getD 0

/-- The fastest-pace key `a.get("moving_time", 0) / (a.get("distance", 0) / 1000)`
from `find_personal_records` in `app/stats.py` (seconds per kilometre). -/
def paceOf (a : Activity) : ℚ := timeOf a / (distOf a / 1000)

/-- The run filter of `find_personal_records` in `app/stats.py`:
`a.get("type") == "Run" and a.get("distance", 0) > 0 and a.get("moving_time", 0) > 0`. -/
def isRun (a : Activity) : Bool :=
  a.atype == some "Run" && decide ((0 : ℚ) < distOf a) && decide ((0 : ℚ) < timeOf a)

/-- The totals dictionary built by `calculate_totals` in `app/stats.py`. -/
structure Totals where
  total_distance : ℚ
  total_time : ℚ
  total_elevation : ℚ
  activity_count : Nat
deriving DecidableEq

/-- `calculate_totals` from `app/stats.py`: sums of `distance`,
`moving_time`, `total_elevation_gain` (missing fields read as 0) plus the
record count. -/
def calculate_totals (acts : List Activity) : Totals :=
  { total_distance := (acts.map distOf).sum
    total_time := (acts.map timeOf).sum
    total_elevation := (acts.map elevOf).sum
    activity_count := acts.length }

/-- The averages dictionary built by `calculate_averages` in `app/stats.py`. -/
structure Averages where
  avg_distance : ℚ
  avg_speed : ℚ
  avg_pace : ℚ
  avg_duration : ℚ
deriving DecidableEq

/-- `calculate_averages` from `app/stats.py`.  Empty input returns the
all-zero dictionary; `avg_speed` is guarded by `total_time > 0` and
`avg_pace` by `total_distance > 0`, each falling back to 0. -/
def calculate_averages (acts : List Activity) : Averages :=
  if acts = [] then ⟨0, 0, 0, 0⟩
  else
    { avg_distance := (calculate_totals acts).total_distance / acts.length
      avg_speed :=
        if (calculate_totals acts).total_time > 0 then
          (calculate_totals acts).total_distance / (calculate_totals acts).total_time
        else 0
      avg_pace :=
        if (calculate_totals acts).total_distance > 0 then
          (calculate_totals acts).total_time / ((calculate_totals acts).total_distance / 1000)
        else 0
      avg_duration := (calculate_totals acts).total_time / acts.length }

/-- Python's `max(xs, key=f)` on a list: scans left to right and replaces
the current best only on a strictly larger key, so ties keep the
first-encountered element.  `none` on the empty list (Python raises there,
but `find_personal_records` only calls it on non-empty input). -/
def pyMaxBy (f : Activity → ℚ) : List Activity → Option Activity
  | [] => none
  | x :: xs => some (xs.foldl (fun b a => if f b < f a then a else b) x)

/-- Python's `min(xs, key=f)`: ties keep the first-encountered element. -/
def pyMinBy (f : Activity → ℚ) : List Activity → Option Activity
  | [] => none
  | x :: xs => some (xs.foldl (fun b a => if f a < f b then a else b) x)

/-- The personal-record dictionary built by `find_personal_records`. -/
structure PersonalRecords where
  longest_distance : Option Activity
  fastest_pace : Option Activity
  highest_elevation : Option Activity
  longest_duration : Option Activity
deriving DecidableEq

/-- `find_personal_records` from `app/stats.py`: all fields `None` on
empty input; otherwise `max` by distance / elevation / duration over the
whole list, and `min` by pace over the runs with positive distance and
positive moving time (`None` when there is no such run). -/
def find_personal_records (acts : List Activity) : PersonalRecords :=
  if acts = [] then ⟨none, none, none, none⟩
  else
    { longest_distance := pyMaxBy distOf acts
      fastest_pace := pyMinBy paceOf (acts.filter isRun)
      highest_elevation := pyMaxBy elevOf acts
      longest_duration := pyMaxBy timeOf acts }

/-- Python's `datetime.weekday()` for a datetime held as Unix seconds:
Monday is 0; 1970-01-01 (day 0) was a Thursday (3).  `Int` `/` and `%`
are floor-style for the positive divisors 86400 and 7, as in Python. -/
def weekday (t : Int) : Int := (t / 86400 + 3) % 7

/-- One element of the list built by `calculate_weekly_summary`
(`app/stats.py`): the window bounds (as Unix seconds; the source keeps
them as datetimes and also renders presentation labels from them, which
carry no further information) and the totals of the bucket. -/
structure WeekSummary where
  week_start : Int
  week_end : Int
  totals : Totals
deriving DecidableEq

/-- The body of one `for week_num in range(weeks)` iteration of
`calculate_weekly_summary`: `week_start = today - timedelta(days=today.weekday() + 7*week_num + 7)`,
`week_end = week_start + timedelta(days=7)`, bucket by
`week_start <= start < week_end`, reduce with `calculate_totals`. -/
def mkWeek (now : Int) (acts : List Activity) (k : Nat) : WeekSummary :=
  { week_start := now - (weekday now + 7 * (k : Int) + 7) * 86400
    week_end := now - (weekday now + 7 * (k : Int) + 7) * 86400 + 7 * 86400
    totals := calculate_totals (acts.filter (fun a =>
      decide (now - (weekday now + 7 * (k : Int) + 7) * 86400 ≤ a.start_date.getD 0
        ∧ a.start_date.getD 0 < now - (weekday now + 7 * (k : Int) + 7) * 86400 + 7 * 86400))) }

/-- `calculate_weekly_summary` from `app/stats.py`.  The source reads
`a["start_date"]` and `strptime`s it for every activity inside each
weekly bucket comprehension, so a record with a missing or unparseable
`start_date` makes the Python raise whenever at least one week is
requested; that failure is modelled as `none`.  Otherwise the weeks are
built newest-first (`week_num = 0, 1, ...`) and the list is reversed. -/
def calculate_weekly_summary (now : Int) (acts : List Activity) (weeks : Nat) :
    Option (List WeekSummary) :=
  if weeks ≠ 0 ∧ acts.any (fun a => a.start_date.isNone) then none
  else some (((List.range weeks).map (mkWeek now acts)).reverse)

/-- Python tuple comparison on the `(key, value)` items of `kwargs`, as
used by `sorted(kwargs.items())` in `generate_cache_key` (`app/cache.py`). -/
def pairR (a b : String × Int) : Prop := a.1 < b.1 ∨ (a.1 = b.1 ∧ a.2 ≤ b.2)

instance : DecidableRel pairR := fun a b =>
  inferInstanceAs (Decidable (a.1 < b.1 ∨ (a.1 = b.1 ∧ a.2 ≤ b.2)))

instance : IsTrans (String × Int) pairR where
  trans a b c hab hbc := by
    rcases hab with h1 | ⟨h1, h1v⟩ <;> rcases hbc with h2 | ⟨h2, h2v⟩
    · exact Or.inl (lt_trans h1 h2)
    · exact Or.inl (h2 ▸ h1)
    · exact Or.inl (h1 ▸ h2)
    · exact Or.inr ⟨h1.trans h2, le_trans h1v h2v⟩

instance : IsTotal (String × Int) pairR where
  total a b := by
    rcases lt_trichotomy a.1 b.1 with h | h | h
    · exact Or.inl (Or.inl h)
    · rcases le_total a.2 b.2 with hv | hv
      · exact Or.inl (Or.inr ⟨h, hv⟩)
      · exact Or.inr (Or.inr ⟨h.symm, hv⟩)
    · exact Or.inr (Or.inl h)

instance : IsAntisymm (String × Int) pairR where
  antisymm a b hab hba := by
    rcases hab with h1 | ⟨h1, h1v⟩ <;> rcases hba with h2 | ⟨h2, h2v⟩
    · exact absurd h2 (lt_asymm h1)
    · exact absurd (h2 ▸ h1) (lt_irrefl _)
    · exact absurd (h1 ▸ h2) (lt_irrefl _)
    · exact Prod.ext h1 (le_antisymm h1v h2v)

/-- `sorted(kwargs.items())` from `generate_cache_key`: a stable sort by
Python tuple comparison (the relation `pairR` is linear on the modelled
`(String, Int)` items, so any sort yields the same list). -/
def sortPairs (ps : List (String × Int)) : List (String × Int) :=
  List.insertionSort pairR ps

/-- `json.dumps(sorted_items)` from `generate_cache_key`: the canonical
JSON rendering of the sorted item list (tuples render as arrays). -/
def serializePairs (ps : List (String × Int)) : String :=
  "[" ++ String.intercalate ", "
    (ps.map (fun p => "[\"" ++ p.1 ++ "\", " ++ toString p.2 ++ "]")) ++ "]"

/-- `generate_cache_key` from `app/cache.py`:
`f"strava:{athlete_id}:{prefix}:{params_hash}"` where `params_hash` is a
truncated md5 hex digest of the serialized sorted parameters.  The digest
is an arbitrary function parameter here (the claims about key generation
hold for every digest function, md5-hex-8 included); `pfx` is the
source's `prefix` argument. -/
def generate_cache_key (digest : String → String) (pfx : String)
    (athlete_id : Int) (params : List (String × Int)) : String :=
  "strava:" ++ toString athlete_id ++ ":" ++ pfx ++ ":"
    ++ digest (serializePairs (sortPairs params))

/-- Split a character list at `'-'`, modelling what
`datetime.strptime(s, "%Y-%m-%d")` sees as the three date fields. -/
def splitDash : List Char → List (List Char)
  | [] => [[]]
  | c :: rest =>
    match splitDash rest with
    | [] => [[c]]
    | g :: gs => if c = '-' then [] :: g :: gs else (c :: g) :: gs

/-- Decimal value of a digit list. -/
def digitsToNat (cs : List Char) : Nat :=
  cs.foldl (fun acc c => 10 * acc + (c.toNat - 48)) 0

/-- A numeric `strptime` field of between 1 and `maxLen` digits, as the
`%m` field regex `1[0-2]|0[1-9]|[1-9]` admits (out-of-range values such
as `"00"` are rejected by the range check in `parseDate`). -/
def parseNatField (maxLen : Nat) (cs : List Char) : Option Nat :=
  if cs ≠ [] ∧ cs.length ≤ maxLen ∧ cs.all (fun c => c.isDigit) then
    some (digitsToNat cs)
  else none

/-- The `%Y` field of CPython `strptime`: exactly four digits
(`\d\d\d\d`), so `"99"` does not match. -/
def parseYearField (cs : List Char) : Option Nat :=
  if cs.length = 4 ∧ cs.all (fun c => c.isDigit) then some (digitsToNat cs)
  else none

/-- The `%d` field of CPython `strptime`: one or two digits, or a
space-padded single non-zero digit (the regex alternative ` [1-9]`), so
`" 5"` matches day 5. -/
def parseDayField (cs : List Char) : Option Nat :=
  match cs with
  | [' ', c] => if c.isDigit ∧ c ≠ '0' then some (c.toNat - 48) else none
  | _ => parseNatField 2 cs

/-- Leap-year test of the Gregorian calendar (as in `datetime`). -/
def isLeap (y : Nat) : Bool := (y % 4 == 0 && y % 100 != 0) || y % 400 == 0

/-- Days in a month, as validated by the `datetime` constructor. -/
def daysInMonth (y m : Nat) : Nat :=
  if m = 2 then (if isLeap y then 29 else 28)
  else if m = 4 ∨ m = 6 ∨ m = 9 ∨ m = 11 then 30 else 31

/-- Days from 1970-01-01 to the civil date `y-m-d` (standard
days-from-civil computation of the proleptic Gregorian calendar, as
performed by `datetime(...).timestamp() / 86400` for midnight UTC). -/
def epochDayOfDate (y m d : Nat) : Int :=
  let ya := if m ≤ 2 then y - 1 else y
  let era := ya / 400
  let yoe := ya % 400
  let mp := if 2 < m then m - 3 else m + 9
  let doy := (153 * mp + 2) / 5 + (d - 1)
  let doe := yoe * 365 + yoe / 4 - yoe / 100 + doy
  ((era * 146097 + doe : Nat) : Int) - 719468

/-- `datetime.strptime(s, "%Y-%m-%d")` followed by
`int(date.timestamp())`, modelled for UTC: `none` exactly when `strptime`
or the `datetime` constructor raises `ValueError` (wrong field count, a
field its regex does not match — the year must be exactly four digits,
the month one or two, the day one or two or space-padded — month or day
out of range, year 0). -/
def parseDate (s : String) : Option Int :=
  match splitDash s.data with
  | [ys, ms, ds] =>
    match parseYearField ys, parseNatField 2 ms, parseDayField ds with
    | some y, some m, some d =>
      if 1 ≤ y ∧ 1 ≤ m ∧ m ≤ 12 ∧ 1 ≤ d ∧ d ≤ daysInMonth y m then
        some (86400 * epochDayOfDate y m d)
      else none
    | _, _, _ => none
  | _ => none

/-- `parse_date_range` from `app/utils.py`.  Arguments model
`request.args.get(...)` results (`none` = parameter missing); the Python
truthiness test `if start_date_str:` also treats `""` as absent.  A
`ValueError` from either `strptime` makes the whole call return
`(None, None)`; the end bound gets `+ 86399` seconds. -/
def parse_date_range (sOpt eOpt : Option String) : Option Int × Option Int :=
  let ps : Option (Option Int) :=
    match sOpt with
    | none => some none
    | some s => if s = "" then some none else (parseDate s).map some
  let pe : Option (Option Int) :=
    match eOpt with
    | none => some none
    | some e => if e = "" then some none else (parseDate e).map (fun t => some (t + 86399))
  match ps, pe with
  | some a, some b => (a, b)
  | _, _ => (none, none)

/-- The observable result of one physical HTTP attempt inside
`StravaAPI._make_request` (`app/strava_api.py`): either a response (with
status code, optional `Retry-After` value, the two optional rate-limit
headers and the decoded JSON body) or a transport failure
(`requests.exceptions.Timeout` / `ConnectionError`). -/
inductive AttemptResult where
  | response (status : Nat) (retryAfter : Option Int)
      (rlLimit rlUsage : Option String) (body : String)
  | timeout
  | connError
deriving DecidableEq

/-- How a call of `StravaAPI._make_request` terminates: the decoded JSON
body, one of the three `StravaAPIError` classes, or an exception the
source never catches (the `IndexError` from indexing a header split). -/
inductive Outcome where
  | success (body : String)
  | rateLimited (retryAfter : Int)
  | authFailed
  | apiError (msg : String)
  | pyError (msg : String)
deriving DecidableEq

/-- Split a character list at `','`, modelling Python's
`str.split(",")` on the header values (`"".split(",") == [""]`). -/
def splitComma : List Char → List (List Char)
  | [] => [[]]
  | c :: rest =>
    match splitComma rest with
    | [] => [[c]]
    | g :: gs => if c = ',' then [] :: g :: gs else (c :: g) :: gs

/-- The retry loop of `StravaAPI._make_request`: `remaining` attempts are
left and `attempt` of them have been made.  `remaining = 1` is the
source's `attempt == max_retries - 1` last-attempt test.  Status 429 and
401 raise immediately; `raise_for_status` turns 4xx/5xx into retried
(5xx) or terminal (other 4xx) errors; on a non-error status the two
rate-limit headers are `get`-defaulted to `""`, split on `","`, and the
debug f-string indexes element 1 of both splits, raising `IndexError`
when a split has fewer than two elements.  The second component counts
the attempts actually made. -/
def requestLoop (t : Nat → AttemptResult) : Nat → Nat → Outcome × Nat
  | 0, attempt => (.apiError "Maximum retries exceeded", attempt)
  | remaining + 1, attempt =>
    match t attempt with
    | .response status retryAfter rlLimit rlUsage body =>
      if status = 429 then (.rateLimited (retryAfter.getD 60), attempt + 1)
      else if status = 401 then (.authFailed, attempt + 1)
      else if 400 ≤ status ∧ status < 600 then
        if 500 ≤ status then
          if remaining = 0 then
            (.apiError "Strava service is temporarily unavailable. Please try again later.",
              attempt + 1)
          else requestLoop t remaining (attempt + 1)
        else (.apiError ("API error: " ++ toString status), attempt + 1)
      else
        if (splitComma (rlLimit.getD "").data) ≠ [] ∧ (splitComma (rlUsage.getD "").data) ≠ [] then
          if (splitComma (rlUsage.getD "").data).length < 2
              ∨ (splitComma (rlLimit.getD "").data).length < 2 then
            (.pyError "IndexError", attempt + 1)
          else (.success body, attempt + 1)
        else (.success body, attempt + 1)
    | .timeout =>
      if remaining = 0 then (.apiError "Request timed out. Please try again.", attempt + 1)
      else requestLoop t remaining (attempt + 1)
    | .connError =>
      if remaining = 0 then
        (.apiError "Connection error. Please check your internet connection.", attempt + 1)
      else requestLoop t remaining (attempt + 1)

/-- `StravaAPI._make_request` over an attempt oracle, with the source's
`max_retries=3` default. -/
def make_request (t : Nat → AttemptResult) (maxRetries : Nat := 3) : Outcome × Nat :=
  requestLoop t maxRetries 0

/-- How `get_athlete_activities` forwards the driver's `before` local to
the request params: `if before:` — an int 0 is falsy, so the param is
omitted; `none` is the initial no-bound state. -/
def toParam : Option Int → Option Int
  | none => none
  | some t => if t = 0 then none else some t

/-- `if max_activities and len(all_activities) >= max_activities:` from
`fetch_all_activities` — Python truthiness makes a cap of 0 behave like
no cap. -/
def capHit (cap : Option Nat) (len : Nat) : Bool :=
  match cap with
  | some m => m != 0 && decide (m ≤ len)
  | none => false

/-- Why the pagination loop of `fetch_all_activities` stopped. -/
inductive StopReason where
  | emptyPage
  | capReached
  | shortPage
  | noTimestamp
  | iterCeiling
deriving DecidableEq

/-- The instrumented result of the pagination loop: the accumulated
activity list the source returns, plus (for the statements below) the
stop reason and the trace of `before` params actually sent. -/
structure FetchResult where
  acts : List Activity
  reason : StopReason
  cursors : List (Option Int)
deriving DecidableEq

/-- The `while iteration < max_iterations` loop of `fetch_all_activities`
(`app/routes/api.py`).  `fetch i b` is the page the upstream returns for
the `i`-th call with `before` param `b` (the source always sends
`per_page=200, page=1`).  Checks in source order: empty page; record cap
(truncate with `[:max_activities]`); short page (`< 200`); then the next
cursor is the parsed `start_date` of the last record (a missing or empty
`start_date` breaks the loop).  `fuel` is `max_iterations - iteration`. -/
def fetchAllAux (fetch : Nat → Option Int → List Activity) (cap : Option Nat) :
    Nat → Nat → Option Int → List Activity → FetchResult
  | 0, _, _, acc => ⟨acc, .iterCeiling, []⟩
  | fuel + 1, i, before, acc =>
    if fetch i (toParam before) = [] then ⟨acc, .emptyPage, [toParam before]⟩
    else if capHit cap (acc ++ fetch i (toParam before)).length then
      ⟨(acc ++ fetch i (toParam before)).take (cap.getD 0), .capReached, [toParam before]⟩
    else if (fetch i (toParam before)).length < 200 then
      ⟨acc ++ fetch i (toParam before), .shortPage, [toParam before]⟩
    else
      match (fetch i (toParam before)).getLast?.bind (fun a => a.start_date) with
      | some ts =>
        ⟨(fetchAllAux fetch cap fuel (i + 1) (some ts) (acc ++ fetch i (toParam before))).acts,
         (fetchAllAux fetch cap fuel (i + 1) (some ts) (acc ++ fetch i (toParam before))).reason,
         toParam before ::
           (fetchAllAux fetch cap fuel (i + 1) (some ts) (acc ++ fetch i (toParam before))).cursors⟩
      | none => ⟨acc ++ fetch i (toParam before), .noTimestamp, [toParam before]⟩

/-- `fetch_all_activities(strava_api, max_activities)` from
`app/routes/api.py`: run the loop from no cursor, no accumulated records,
`max_iterations = 100`, and return the accumulated list. -/
def fetch_all_activities (fetch : Nat → Option Int → List Activity)
    (cap : Option Nat) : List Activity :=
  (fetchAllAux fetch cap 100 0 none []).acts

/-- Relation between two consecutive `before` params sent by the driver:
the later one must be a strictly smaller bound (the first request may be
unbounded). -/
def cursorStep (c1 c2 : Option Int) : Bool :=
  match c2 with
  | none => false
  | some t2 =>
    match c1 with
    | none => true
    | some t1 => decide (t2 < t1)

/-- A concrete three-page upstream used to exercise the cursor-decrease
statement on a real run: the unbounded first request returns a full page
of 200 records all starting at time 100, the request with cursor 100
returns a full page of records starting at time 50, and any other
cursored request returns the empty page.  It honours `before` semantics
(records of a cursored page start strictly before the cursor) and all
start times are positive, so the driver performs three requests with the
strictly decreasing cursor trace `[none, some 100, some 50]`. -/
def demoUpstream : Nat → Option Int → List Activity := fun _ b =>
  match b with
  | none => List.replicate 200 ⟨some "Run", some 1, some 1, some 0, some 100⟩
  | some t =>
    if t = 100 then List.replicate 200 ⟨some "Run", some 1, some 1, some 0, some 50⟩
    else []

-- ------------------------------------------------------------------
-- Theorems
-- ------------------------------------------------------------------

/-- C6: for the empty activity list `calculate_averages` returns all four
averages equal to zero and `find_personal_records` returns all four record
fields absent (both are total functions, so neither raises); and for any
input, `avg_speed` is 0 whenever the total moving time is 0 and `avg_pace`
is 0 whenever the total distance is 0, so no division error can occur. -/
theorem stats_empty_and_division_safe :
    calculate_averages [] = ⟨0, 0, 0, 0⟩
  ∧ find_personal_records [] = ⟨none, none, none, none⟩
  ∧ (∀ acts, (calculate_totals acts).total_time = 0 →
      (calculate_averages acts).avg_speed = 0)
  ∧ (∀ acts, (calculate_totals acts).total_distance = 0 →
      (calculate_averages acts).avg_pace = 0) := by
  refine ⟨rfl, rfl, ?_, ?_⟩ <;> intro acts h <;> by_cases hn : acts = [] <;>
    simp [calculate_averages, hn, h]

/-- Concrete instantiation of `stats_empty_and_division_safe` on a
one-element list whose totals are zero. -/
theorem stats_empty_and_division_safe_instance :
    (calculate_averages [⟨none, none, none, none, none⟩]).avg_speed = 0
  ∧ (calculate_averages [⟨none, none, none, none, none⟩]).avg_pace = 0 :=
  ⟨stats_empty_and_division_safe.2.2.1 [⟨none, none, none, none, none⟩]
     (by simp [calculate_totals, timeOf]),
   stats_empty_and_division_safe.2.2.2 [⟨none, none, none, none, none⟩]
     (by simp [calculate_totals, distOf])⟩

/-- C9: `parse_date_range` converts calendar-date strings to inclusive
Unix-timestamp bounds, extending the end bound by 86399 seconds; equal
start and end dates give the window from `ts` to `ts + 86399`, which
covers exactly 86400 seconds; and an unparseable (non-empty) input on
either side yields `(none, none)` instead of raising. -/
theorem parse_date_range_spec :
    (∀ s e ts te, parseDate s = some ts → parseDate e = some te →
        parse_date_range (some s) (some e) = (some ts, some (te + 86399)))
  ∧ (∀ s ts, parseDate s = some ts →
        parse_date_range (some s) (some s) = (some ts, some (ts + 86399))
          ∧ (ts + 86399) + 1 - ts = 86400)
  ∧ (∀ s eOpt, s ≠ "" → parseDate s = none →
        parse_date_range (some s) eOpt = (none, none))
  ∧ (∀ sOpt e, e ≠ "" → parseDate e = none →
        parse_date_range sOpt (some e) = (none, none)) := by
  have hempty : parseDate "" = none := rfl
  have hmain : ∀ s e ts te, parseDate s = some ts → parseDate e = some te →
      parse_date_range (some s) (some e) = (some ts, some (te + 86399)) := by
    intro s e ts te hs he
    have hs0 : ¬s = "" := by intro h; rw [h, hempty] at hs; cases hs
    have he0 : ¬e = "" := by intro h; rw [h, hempty] at he; cases he
    simp [parse_date_range, hs0, he0, hs, he]
  refine ⟨hmain, ?_, ?_, ?_⟩
  · intro s ts hs
    exact ⟨hmain s s ts ts hs hs, by omega⟩
  · intro s eOpt hne h
    cases eOpt with
    | none => simp [parse_date_range, hne, h]
    | some e =>
      by_cases he : e = "" <;> simp [parse_date_range, hne, h, he]
  · intro sOpt e hne h
    cases sOpt with
    | none => simp [parse_date_range, hne, h]
    | some s =>
      by_cases hs : s = "" <;> simp [parse_date_range, hne, h, hs]

/-- Concrete instantiation of `parse_date_range_spec`: the single-day
window of 2024-01-01; an invalid month and a two-digit year (which the
exactly-four-digit `%Y` regex rejects) degrading to no bound; and the
space-padded day `"2024-01- 5"` that `%d` accepts, giving the 2024-01-05
single-day window. -/
theorem parse_date_range_spec_instance :
    parse_date_range (some "2024-01-01") (some "2024-01-01")
      = (some 1704067200, some 1704153599)
  ∧ parse_date_range (some "2024-13-01") (some "2024-01-01") = (none, none)
  ∧ parse_date_range (some "99-01-01") (some "2024-01-01") = (none, none)
  ∧ parse_date_range (some "2024-01- 5") (some "2024-01- 5")
      = (some 1704412800, some 1704499199) :=
  ⟨(parse_date_range_spec.2.1 "2024-01-01" 1704067200 (by decide)).1,
   parse_date_range_spec.2.2.1 "2024-13-01" (some "2024-01-01") (by decide) (by decide),
   parse_date_range_spec.2.2.1 "99-01-01" (some "2024-01-01") (by decide) (by decide),
   (parse_date_range_spec.2.1 "2024-01- 5" 1704412800 (by decide)).1⟩

/-- C3 (code bug): on a 2xx response whose rate-limit headers are absent,
`_make_request` does not return the decoded JSON body: `"".split(",")`
is `[""]`, which is truthy, so the logging f-string indexes element 1 of a
one-element list and raises `IndexError`.  The success outcome is only
reached when both headers contain a comma-separated pair. -/
theorem make_request_header_crash :
    make_request (fun _ => .response 200 none none none "body") 3
      = (.pyError "IndexError", 1)
  ∧ make_request (fun _ => .response 200 none (some "100,1000") (some "50,500") "body") 3
      = (.success "body", 1) := by
  exact ⟨by decide, by decide⟩

/-- The retry loop never makes more attempts than it has remaining. -/
theorem requestLoop_attempts_le (t : Nat → AttemptResult) :
    ∀ rem att, (requestLoop t rem att).2 ≤ att + rem := by
  intro rem
  induction rem with
  | zero => intro att; simp [requestLoop]
  | succ r ih =>
    intro att
    rw [requestLoop]
    cases t att with
    | response st ra lim usg body =>
      dsimp only
      split_ifs <;> first
        | (exact le_trans (ih (att + 1)) (by omega))
        | (show att + 1 ≤ att + (r + 1); omega)
    | timeout =>
      dsimp only
      split_ifs <;> first
        | (exact le_trans (ih (att + 1)) (by omega))
        | (show att + 1 ≤ att + (r + 1); omega)
    | connError =>
      dsimp only
      split_ifs <;> first
        | (exact le_trans (ih (att + 1)) (by omega))
        | (show att + 1 ≤ att + (r + 1); omega)

/-- C2: `_make_request` with the default `max_retries=3` makes at most 3
attempts for any sequence of outcomes (in particular for repeated 5xx or
transport errors), and exactly 1 attempt on 429 or 401: a 429 first
response yields the rate-limit error with `retry_after` equal to the
`Retry-After` header value (60 when absent), and a 401 first response
yields the authentication error, both after a single attempt. -/
theorem make_request_retry_spec :
    (∀ t, (make_request t 3).2 ≤ 3)
  ∧ (∀ t ra lim usg body, t 0 = .response 429 ra lim usg body →
        make_request t 3 = (.rateLimited (ra.getD 60), 1))
  ∧ (∀ t ra lim usg body, t 0 = .response 401 ra lim usg body →
        make_request t 3 = (.authFailed, 1)) := by
  refine ⟨fun t => requestLoop_attempts_le t 3 0, ?_, ?_⟩
  · intro t ra lim usg body h
    simp [make_request, requestLoop, h]
  · intro t ra lim usg body h
    simp [make_request, requestLoop, h]

/-- Concrete instantiation of `make_request_retry_spec`: 429 with
`Retry-After: 45`, 429 without the header, 401, and repeated timeouts. -/
theorem make_request_retry_spec_instance :
    (make_request (fun _ => .response 429 (some 45) none none "") 3
      = (.rateLimited 45, 1))
  ∧ (make_request (fun _ => .response 429 none none none "") 3
      = (.rateLimited 60, 1))
  ∧ (make_request (fun _ => .response 401 none none none "") 3
      = (.authFailed, 1))
  ∧ (make_request (fun _ => .timeout) 3).2 ≤ 3 :=
  ⟨make_request_retry_spec.2.1 (fun _ => .response 429 (some 45) none none "")
      (some 45) none none "" rfl,
   make_request_retry_spec.2.1 (fun _ => .response 429 none none none "")
      none none none "" rfl,
   make_request_retry_spec.2.2 (fun _ => .response 401 none none none "")
      none none none "" rfl,
   make_request_retry_spec.1 (fun _ => .timeout)⟩

/-- A cap of 0 never fires the truncation branch, so the loop is the
same as with no cap at every state. -/
theorem fetchAllAux_zero_cap (fetch : Nat → Option Int → List Activity) :
    ∀ fuel i before acc,
      fetchAllAux fetch (some 0) fuel i before acc
        = fetchAllAux fetch none fuel i before acc := by
  intro fuel
  induction fuel with
  | zero => intro i before acc; rfl
  | succ f ih =>
    intro i before acc
    rw [fetchAllAux, fetchAllAux]
    have h0 : ∀ x, capHit (some 0) x = false := fun _ => rfl
    have h1 : ∀ x, capHit none x = false := fun _ => rfl
    simp only [h0, h1, Bool.false_eq_true, if_false]
    split_ifs with hempty hshort
    · rfl
    · rfl
    · cases hlast : (fetch i (toParam before)).getLast?.bind (fun a => a.start_date) with
      | some ts => simp [ih]
      | none => rfl

/-- C10: `fetch_all_activities` with `max_activities = 0` behaves
identically to no cap at all for every upstream, because Python's
`if max_activities and ...` is false for 0 — the full history is fetched
subject only to the other stop conditions, not an empty list. -/
theorem fetch_all_activities_zero_cap (fetch : Nat → Option Int → List Activity) :
    fetch_all_activities fetch (some 0) = fetch_all_activities fetch none := by
  unfold fetch_all_activities
  rw [fetchAllAux_zero_cap]

/-- C8: cache-key generation is deterministic and parameter-order
independent — permuting the parameter list yields the identical key — and
two different prefixes with the same athlete and parameters always yield
different keys.  Both statements hold for every digest function, so in
particular for the truncated md5 of the source. -/
theorem cache_key_spec :
    (∀ digest pfx ath l1 l2, l1.Perm l2 →
        generate_cache_key digest pfx ath l1 = generate_cache_key digest pfx ath l2)
  ∧ (∀ digest pfx1 pfx2 ath l, pfx1 ≠ pfx2 →
        generate_cache_key digest pfx1 ath l ≠ generate_cache_key digest pfx2 ath l) := by
  constructor
  · intro digest pfx ath l1 l2 hperm
    have hsorted : sortPairs l1 = sortPairs l2 := by
      apply List.eq_of_perm_of_sorted (r := pairR)
      · exact (List.perm_insertionSort pairR l1).trans
          (hperm.trans (List.perm_insertionSort pairR l2).symm)
      · exact List.sorted_insertionSort pairR l1
      · exact List.sorted_insertionSort pairR l2
    unfold generate_cache_key
    rw [hsorted]
  · intro digest p1 p2 ath l hne heq
    apply hne
    unfold generate_cache_key at heq
    have h := congrArg String.data heq
    simp only [show ∀ (a b : String), (a ++ b).data = a.data ++ b.data from fun _ _ => rfl,
      List.append_assoc] at h
    have h1 := List.append_cancel_left h
    have h2 := List.append_cancel_left h1
    have h3 := List.append_cancel_left h2
    exact String.ext (List.append_cancel_right h3)

/-- Concrete instantiation of `cache_key_spec` with the identity digest,
the parameter sets of the spec and the prefixes of `app/cache.py`. -/
theorem cache_key_spec_instance :
    generate_cache_key id "activities" 7 [("b", 2), ("a", 1)]
      = generate_cache_key id "activities" 7 [("a", 1), ("b", 2)]
  ∧ generate_cache_key id "activities" 7 [("a", 1), ("b", 2)]
      ≠ generate_cache_key id "stats" 7 [("a", 1), ("b", 2)] :=
  ⟨cache_key_spec.1 id "activities" 7 [("b", 2), ("a", 1)] [("a", 1), ("b", 2)]
      (by decide),
   cache_key_spec.2 id "activities" "stats" 7 [("a", 1), ("b", 2)] (by decide)⟩

/-- The fold of Python's `max(key=f)` either keeps the seed (all keys at
most the seed's) or returns the first element strictly exceeding the seed
and every earlier element. -/
theorem foldlMax_spec (f : Activity → ℚ) :
    ∀ (xs : List Activity) (b : Activity),
      (xs.foldl (fun b a => if f b < f a then a else b) b = b ∧ ∀ a ∈ xs, f a ≤ f b)
      ∨ ∃ pre r post, xs = pre ++ r :: post
          ∧ xs.foldl (fun b a => if f b < f a then a else b) b = r
          ∧ f b < f r ∧ (∀ a ∈ pre, f a < f r) ∧ (∀ a ∈ xs, f a ≤ f r) := by
  intro xs
  induction xs with
  | nil => intro b; left; exact ⟨rfl, by simp⟩
  | cons a xs ih =>
    intro b
    rw [List.foldl_cons]
    by_cases h : f b < f a
    · rw [if_pos h]
      rcases ih a with ⟨heq, hall⟩ | ⟨pre, r, post, hxs, heq, hlt, hpre, hall⟩
      · right
        refine ⟨[], a, xs, rfl, heq, h, by simp, ?_⟩
        intro x hx
        rcases List.mem_cons.mp hx with hx | hx
        · exact le_of_eq (congrArg f hx)
        · exact hall x hx
      · right
        refine ⟨a :: pre, r, post, by rw [hxs]; rfl, heq, lt_trans h hlt, ?_, ?_⟩
        · intro x hx
          rcases List.mem_cons.mp hx with hx | hx
          · exact (congrArg f hx).le.trans_lt hlt
          · exact hpre x hx
        · intro x hx
          rcases List.mem_cons.mp hx with hx | hx
          · exact (congrArg f hx).le.trans (le_of_lt hlt)
          · exact hall x hx
    · rw [if_neg h]
      rcases ih b with ⟨heq, hall⟩ | ⟨pre, r, post, hxs, heq, hlt, hpre, hall⟩
      · left
        refine ⟨heq, ?_⟩
        intro x hx
        rcases List.mem_cons.mp hx with hx | hx
        · exact (congrArg f hx).le.trans (not_lt.mp h)
        · exact hall x hx
      · right
        refine ⟨a :: pre, r, post, by rw [hxs]; rfl, heq, hlt, ?_, ?_⟩
        · intro x hx
          rcases List.mem_cons.mp hx with hx | hx
          · exact lt_of_le_of_lt ((congrArg f hx).le.trans (not_lt.mp h)) hlt
          · exact hpre x hx
        · intro x hx
          rcases List.mem_cons.mp hx with hx | hx
          · exact le_of_lt (lt_of_le_of_lt ((congrArg f hx).le.trans (not_lt.mp h)) hlt)
          · exact hall x hx

/-- The fold of Python's `min(key=f)`, mirrored from `foldlMax_spec`. -/
theorem foldlMin_spec (f : Activity → ℚ) :
    ∀ (xs : List Activity) (b : Activity),
      (xs.foldl (fun b a => if f a < f b then a else b) b = b ∧ ∀ a ∈ xs, f b ≤ f a)
      ∨ ∃ pre r post, xs = pre ++ r :: post
          ∧ xs.foldl (fun b a => if f a < f b then a else b) b = r
          ∧ f r < f b ∧ (∀ a ∈ pre, f r < f a) ∧ (∀ a ∈ xs, f r ≤ f a) := by
  intro xs
  induction xs with
  | nil => intro b; left; exact ⟨rfl, by simp⟩
  | cons a xs ih =>
    intro b
    rw [List.foldl_cons]
    by_cases h : f a < f b
    · rw [if_pos h]
      rcases ih a with ⟨heq, hall⟩ | ⟨pre, r, post, hxs, heq, hlt, hpre, hall⟩
      · right
        refine ⟨[], a, xs, rfl, heq, h, by simp, ?_⟩
        intro x hx
        rcases List.mem_cons.mp hx with hx | hx
        · exact le_of_eq (congrArg f hx).symm
        · exact hall x hx
      · right
        refine ⟨a :: pre, r, post, by rw [hxs]; rfl, heq, lt_trans hlt h, ?_, ?_⟩
        · intro x hx
          rcases List.mem_cons.mp hx with hx | hx
          · exact hlt.trans_le (congrArg f hx).symm.le
          · exact hpre x hx
        · intro x hx
          rcases List.mem_cons.mp hx with hx | hx
          · exact (le_of_lt hlt).trans (congrArg f hx).symm.le
          · exact hall x hx
    · rw [if_neg h]
      rcases ih b with ⟨heq, hall⟩ | ⟨pre, r, post, hxs, heq, hlt, hpre, hall⟩
      · left
        refine ⟨heq, ?_⟩
        intro x hx
        rcases List.mem_cons.mp hx with hx | hx
        · exact (not_lt.mp h).trans (congrArg f hx).symm.le
        · exact hall x hx
      · right
        refine ⟨a :: pre, r, post, by rw [hxs]; rfl, heq, hlt, ?_, ?_⟩
        · intro x hx
          rcases List.mem_cons.mp hx with hx | hx
          · exact lt_of_lt_of_le hlt ((not_lt.mp h).trans (congrArg f hx).symm.le)
          · exact hpre x hx
        · intro x hx
          rcases List.mem_cons.mp hx with hx | hx
          · exact le_of_lt (lt_of_lt_of_le hlt ((not_lt.mp h).trans (congrArg f hx).symm.le))
          · exact hall x hx

/-- `pyMaxBy` returns the first-encountered arg-max: every earlier
element is strictly smaller and every element is at most it. -/
theorem pyMaxBy_spec (f : Activity → ℚ) (l : List Activity) (r : Activity)
    (h : pyMaxBy f l = some r) :
    ∃ pre post, l = pre ++ r :: post ∧ (∀ a ∈ pre, f a < f r) ∧ ∀ a ∈ l, f a ≤ f r := by
  cases l with
  | nil => cases h
  | cons x xs =>
    simp only [pyMaxBy, Option.some.injEq] at h
    rcases foldlMax_spec f xs x with ⟨heq, hall⟩ | ⟨pre, rr, post, hxs, heq, hlt, hpre, hall⟩
    · have hrx : r = x := h.symm.trans heq
      subst hrx
      refine ⟨[], xs, rfl, by simp, ?_⟩
      intro a ha
      rcases List.mem_cons.mp ha with ha | ha
      · exact le_of_eq (congrArg f ha)
      · exact hall a ha
    · have hrr : r = rr := h.symm.trans heq
      subst hrr
      refine ⟨x :: pre, post, by rw [hxs]; rfl, ?_, ?_⟩
      · intro a ha
        rcases List.mem_cons.mp ha with ha | ha
        · exact (congrArg f ha).le.trans_lt hlt
        · exact hpre a ha
      · intro a ha
        rcases List.mem_cons.mp ha with ha | ha
        · exact (congrArg f ha).le.trans (le_of_lt hlt)
        · exact hall a ha

/-- `pyMinBy` returns the first-encountered arg-min. -/
theorem pyMinBy_spec (f : Activity → ℚ) (l : List Activity) (r : Activity)
    (h : pyMinBy f l = some r) :
    ∃ pre post, l = pre ++ r :: post ∧ (∀ a ∈ pre, f r < f a) ∧ ∀ a ∈ l, f r ≤ f a := by
  cases l with
  | nil => cases h
  | cons x xs =>
    simp only [pyMinBy, Option.some.injEq] at h
    rcases foldlMin_spec f xs x with ⟨heq, hall⟩ | ⟨pre, rr, post, hxs, heq, hlt, hpre, hall⟩
    · have hrx : r = x := h.symm.trans heq
      subst hrx
      refine ⟨[], xs, rfl, by simp, ?_⟩
      intro a ha
      rcases List.mem_cons.mp ha with ha | ha
      · exact le_of_eq (congrArg f ha).symm
      · exact hall a ha
    · have hrr : r = rr := h.symm.trans heq
      subst hrr
      refine ⟨x :: pre, post, by rw [hxs]; rfl, ?_, ?_⟩
      · intro a ha
        rcases List.mem_cons.mp ha with ha | ha
        · exact hlt.trans_le (congrArg f ha).symm.le
        · exact hpre a ha
      · intro a ha
        rcases List.mem_cons.mp ha with ha | ha
        · exact (le_of_lt hlt).trans (congrArg f ha).symm.le
        · exact hall a ha

/-- C5: `find_personal_records` computes the fastest-pace record only
over activities of type "Run" with positive distance and positive moving
time, as the first-encountered arg-min of `moving_time / (distance/1000)`
over that filtered list; the field is `none` exactly when no such
activity exists (never zero, never an error).  Longest distance, highest
elevation and longest duration are first-encountered arg-max over the
full list (ties broken by the earlier element). -/
theorem personal_records_spec (acts : List Activity) :
    ((find_personal_records acts).fastest_pace = none ↔ acts.filter isRun = [])
  ∧ (∀ r, (find_personal_records acts).fastest_pace = some r →
      ∃ pre post, acts.filter isRun = pre ++ r :: post
        ∧ (∀ a ∈ pre, paceOf r < paceOf a)
        ∧ (∀ a ∈ acts.filter isRun, paceOf r ≤ paceOf a))
  ∧ ((find_personal_records acts).longest_distance = none ↔ acts = [])
  ∧ (∀ r, (find_personal_records acts).longest_distance = some r →
      ∃ pre post, acts = pre ++ r :: post ∧ (∀ a ∈ pre, distOf a < distOf r)
        ∧ ∀ a ∈ acts, distOf a ≤ distOf r)
  ∧ (∀ r, (find_personal_records acts).highest_elevation = some r →
      ∃ pre post, acts = pre ++ r :: post ∧ (∀ a ∈ pre, elevOf a < elevOf r)
        ∧ ∀ a ∈ acts, elevOf a ≤ elevOf r)
  ∧ (∀ r, (find_personal_records acts).longest_duration = some r →
      ∃ pre post, acts = pre ++ r :: post ∧ (∀ a ∈ pre, timeOf a < timeOf r)
        ∧ ∀ a ∈ acts, timeOf a ≤ timeOf r) := by
  by_cases hn : acts = []
  · subst hn
    refine ⟨by simp [find_personal_records], ?_, by simp [find_personal_records], ?_, ?_, ?_⟩ <;>
      (intro r h; simp [find_personal_records] at h)
  · have hfp : (find_personal_records acts).fastest_pace = pyMinBy paceOf (acts.filter isRun) := by
      simp [find_personal_records, hn]
    have hld : (find_personal_records acts).longest_distance = pyMaxBy distOf acts := by
      simp [find_personal_records, hn]
    have hhe : (find_personal_records acts).highest_elevation = pyMaxBy elevOf acts := by
      simp [find_personal_records, hn]
    have hldu : (find_personal_records acts).longest_duration = pyMaxBy timeOf acts := by
      simp [find_personal_records, hn]
    refine ⟨?_, ?_, ?_, ?_, ?_, ?_⟩
    · rw [hfp]
      cases hruns : acts.filter isRun with
      | nil => simp [pyMinBy]
      | cons x xs => simp [pyMinBy]
    · intro r h
      exact pyMinBy_spec paceOf (acts.filter isRun) r (hfp ▸ h)
    · rw [hld]
      cases hacts : acts with
      | nil => exact absurd hacts hn
      | cons x xs => simp [pyMaxBy]
    · intro r h
      exact pyMaxBy_spec distOf acts r (hld ▸ h)
    · intro r h
      exact pyMaxBy_spec elevOf acts r (hhe ▸ h)
    · intro r h
      exact pyMaxBy_spec timeOf acts r (hldu ▸ h)

/-- Concrete instantiation of `personal_records_spec` on the spec's
scenario A: the Run activity is the fastest-pace record and the Ride is
excluded from the pace pool. -/
theorem personal_records_spec_instance :
    ∃ pre post,
      ([⟨some "Run", some 10000, some 3000, some 0, some 0⟩,
        ⟨some "Ride", some 20000, some 3600, some 0, some 0⟩] : List Activity).filter isRun
        = pre ++ (⟨some "Run", some 10000, some 3000, some 0, some 0⟩ : Activity) :: post
      ∧ (∀ a ∈ pre, paceOf ⟨some "Run", some 10000, some 3000, some 0, some 0⟩ < paceOf a)
      ∧ (∀ a ∈ ([⟨some "Run", some 10000, some 3000, some 0, some 0⟩,
          ⟨some "Ride", some 20000, some 3600, some 0, some 0⟩] : List Activity).filter isRun,
            paceOf ⟨some "Run", some 10000, some 3000, some 0, some 0⟩ ≤ paceOf a) :=
  (personal_records_spec
      [⟨some "Run", some 10000, some 3000, some 0, some 0⟩,
       ⟨some "Ride", some 20000, some 3600, some 0, some 0⟩]).2.1
    ⟨some "Run", some 10000, some 3000, some 0, some 0⟩
    (by decide)

/-- Every weekly window starts on a Monday (at the current time of day). -/
theorem weekday_mkWeek (now : Int) (acts : List Activity) (k : Nat) :
    weekday (mkWeek now acts k).week_start = 0 := by
  show weekday (now - (weekday now + 7 * (k : Int) + 7) * 86400) = 0
  unfold weekday
  omega

/-- C7 (amended): `calculate_weekly_summary` produces exactly `weeks`
windows, built newest-first and returned in chronological order (oldest
first, strictly increasing `week_start`); each window is 7 days long and
starts on a Monday at the current time of day — not at midnight — with
the `k`-th-newest window spanning
`[now - (weekday(now) + 7k + 7) days, + 7 days)` and holding the totals
of the activities inside it.  The newest window therefore ends on the
Monday of the current week at the current time of day, not strictly
before the current week. -/
theorem weekly_summary_windows (now : Int) (acts : List Activity) (weeks : Nat)
    (out : List WeekSummary) (h : calculate_weekly_summary now acts weeks = some out) :
    out.length = weeks
  ∧ (∀ i, (hi : i < out.length) → out.get ⟨i, hi⟩ = mkWeek now acts (weeks - 1 - i))
  ∧ (∀ k, weekday (mkWeek now acts k).week_start = 0
      ∧ (mkWeek now acts k).week_start = now - (weekday now + 7 * (k : Int) + 7) * 86400
      ∧ (mkWeek now acts k).week_end = (mkWeek now acts k).week_start + 604800
      ∧ (mkWeek now acts k).totals = calculate_totals (acts.filter (fun a =>
          decide ((mkWeek now acts k).week_start ≤ a.start_date.getD 0
            ∧ a.start_date.getD 0 < (mkWeek now acts k).week_end))))
  ∧ List.Pairwise (fun w1 w2 => w1.week_start < w2.week_start) out := by
  have hout : out = ((List.range weeks).map (mkWeek now acts)).reverse := by
    unfold calculate_weekly_summary at h
    split at h
    · cases h
    · exact (Option.some.injEq _ _ ▸ h).symm
  subst hout
  refine ⟨by simp, ?_, ?_, ?_⟩
  · intro i hi
    simp only [List.length_reverse, List.length_map, List.length_range] at hi
    simp [List.get_eq_getElem, List.getElem_reverse, List.getElem_map, List.getElem_range]
  · intro k
    exact ⟨weekday_mkWeek now acts k, rfl, rfl, rfl⟩
  · rw [List.pairwise_reverse, List.pairwise_map]
    refine (List.pairwise_lt_range weeks).imp ?_
    intro i j hij
    show (mkWeek now acts j).week_start < (mkWeek now acts i).week_start
    simp only [mkWeek]
    omega

/-- Concrete instantiation of `weekly_summary_windows` with one week
requested and no activities. -/
theorem weekly_summary_windows_instance :
    ([mkWeek 1704801600 [] 0] : List WeekSummary).length = 1
  ∧ (∀ i, (hi : i < ([mkWeek 1704801600 [] 0] : List WeekSummary).length) →
      ([mkWeek 1704801600 [] 0] : List WeekSummary).get ⟨i, hi⟩ = mkWeek 1704801600 [] (1 - 1 - i))
  ∧ (∀ k, weekday (mkWeek 1704801600 [] k).week_start = 0
      ∧ (mkWeek 1704801600 [] k).week_start
          = 1704801600 - (weekday 1704801600 + 7 * (k : Int) + 7) * 86400
      ∧ (mkWeek 1704801600 [] k).week_end = (mkWeek 1704801600 [] k).week_start + 604800
      ∧ (mkWeek 1704801600 [] k).totals = calculate_totals (([] : List Activity).filter (fun a =>
          decide ((mkWeek 1704801600 [] k).week_start ≤ a.start_date.getD 0
            ∧ a.start_date.getD 0 < (mkWeek 1704801600 [] k).week_end))))
  ∧ List.Pairwise (fun w1 w2 => w1.week_start < w2.week_start)
      ([mkWeek 1704801600 [] 0] : List WeekSummary) :=
  weekly_summary_windows 1704801600 [] 1 [mkWeek 1704801600 [] 0] rfl

/-- C7 counterexample: windows do not end strictly before the current
week.  `now = 1704801600` is Tuesday 2024-01-09 12:00:00 UTC, whose
calendar week starts Monday 2024-01-08 00:00:00 = 1704672000 (a Monday
midnight, as the second through fifth conjuncts pin down).  The single
activity starts at 1704693600 (Monday 2024-01-08 06:00, inside the
current week), yet the one returned window is
`[1704110400, 1704715200)` — ending at Monday 12:00 of the current week,
after the current week began — and counts that activity
(`activity_count = 1`), where the claim requires it to appear in no
window. -/
theorem weekly_summary_current_week_leak :
    (calculate_weekly_summary 1704801600
        [⟨some "Run", some 5, some 100, some 0, some 1704693600⟩] 1).map
        (fun l => l.map (fun w => (w.week_start, w.week_end, w.totals.activity_count)))
      = some [((1704110400 : Int), (1704715200 : Int), 1)]
  ∧ weekday 1704672000 = 0
  ∧ (1704672000 : Int) % 86400 = 0
  ∧ (1704672000 : Int) ≤ 1704801600
  ∧ (1704801600 : Int) < 1704672000 + 604800
  ∧ (1704672000 : Int) ≤ 1704693600
  ∧ (1704672000 : Int) < 1704715200 := by
  exact ⟨by decide, by decide, by decide, by decide, by decide, by decide, by decide⟩

/-- With pages of at most 200 records, each loop iteration adds at most
200 records. -/
theorem fetchAllAux_length_le (fetch : Nat → Option Int → List Activity) (cap : Option Nat)
    (hlen : ∀ i b, (fetch i b).length ≤ 200) :
    ∀ fuel i before acc,
      (fetchAllAux fetch cap fuel i before acc).acts.length ≤ acc.length + fuel * 200 := by
  intro fuel
  induction fuel with
  | zero => intro i before acc; simp [fetchAllAux]
  | succ f ih =>
    intro i before acc
    rw [fetchAllAux]
    split_ifs with hempty hcap hshort
    · dsimp only; omega
    · dsimp only
      have h1 := hlen i (toParam before)
      simp only [List.length_take, List.length_append]
      omega
    · dsimp only
      have h1 := hlen i (toParam before)
      simp only [List.length_append]
      omega
    · cases hlast : (fetch i (toParam before)).getLast?.bind (fun a => a.start_date) with
      | some ts =>
        dsimp only
        have h2 := ih (i + 1) (some ts) (acc ++ fetch i (toParam before))
        simp only [List.length_append] at h2
        have h1 := hlen i (toParam before)
        omega
      | none =>
        dsimp only
        have h1 := hlen i (toParam before)
        simp only [List.length_append]
        omega

/-- With a non-zero cap not yet met, the result never exceeds the cap,
and a cap-triggered stop truncates to exactly the cap. -/
theorem fetchAllAux_cap (fetch : Nat → Option Int → List Activity) (m : Nat) (hm : m ≠ 0) :
    ∀ fuel i before acc, acc.length < m →
      (fetchAllAux fetch (some m) fuel i before acc).acts.length ≤ m
      ∧ ((fetchAllAux fetch (some m) fuel i before acc).reason = .capReached →
          (fetchAllAux fetch (some m) fuel i before acc).acts.length = m) := by
  intro fuel
  induction fuel with
  | zero =>
    intro i before acc hlt
    refine ⟨le_of_lt hlt, ?_⟩
    intro h
    simp [fetchAllAux] at h
  | succ f ih =>
    intro i before acc hlt
    rw [fetchAllAux]
    split_ifs with hempty hcap hshort
    · refine ⟨le_of_lt hlt, ?_⟩
      intro h
      simp at h
    · have hle : m ≤ (acc ++ fetch i (toParam before)).length := by
        simp only [capHit, bne_iff_ne, ne_eq, Bool.and_eq_true, decide_eq_true_eq] at hcap
        exact hcap.2
      constructor
      · dsimp only
        simp only [Option.getD_some, List.length_take]
        all_goals omega
      · intro _
        dsimp only
        simp only [Option.getD_some, List.length_take]
        all_goals omega
    · have hgt : ¬ m ≤ (acc ++ fetch i (toParam before)).length := by
        simp only [capHit, bne_iff_ne, ne_eq, Bool.and_eq_true, decide_eq_true_eq] at hcap
        intro hc
        exact hcap ⟨hm, hc⟩
      refine ⟨by dsimp only; omega, ?_⟩
      intro h
      simp at h
    · have hgt : ¬ m ≤ (acc ++ fetch i (toParam before)).length := by
        simp only [capHit, bne_iff_ne, ne_eq, Bool.and_eq_true, decide_eq_true_eq] at hcap
        intro hc
        exact hcap ⟨hm, hc⟩
      cases hlast : (fetch i (toParam before)).getLast?.bind (fun a => a.start_date) with
      | some ts =>
        dsimp only
        exact ih (i + 1) (some ts) (acc ++ fetch i (toParam before)) (by omega)
      | none =>
        refine ⟨by dsimp only; omega, ?_⟩
        intro h
        simp at h

/-- A run that exhausts the iteration ceiling consumed exactly 200
records per iteration. -/
theorem fetchAllAux_ceiling (fetch : Nat → Option Int → List Activity) (cap : Option Nat)
    (hlen : ∀ i b, (fetch i b).length ≤ 200) :
    ∀ fuel i before acc,
      (fetchAllAux fetch cap fuel i before acc).reason = .iterCeiling →
      (fetchAllAux fetch cap fuel i before acc).acts.length = acc.length + fuel * 200 := by
  intro fuel
  induction fuel with
  | zero => intro i before acc _; simp [fetchAllAux]
  | succ f ih =>
    intro i before acc hr
    rw [fetchAllAux] at hr ⊢
    split_ifs at hr ⊢ with hempty hcap hshort
    cases hlast : (fetch i (toParam before)).getLast?.bind (fun a => a.start_date) with
      | some ts =>
        rw [hlast] at hr
        dsimp only at hr ⊢
        have hfull : (fetch i (toParam before)).length = 200 := by
          have := hlen i (toParam before)
          omega
        have h2 := ih (i + 1) (some ts) (acc ++ fetch i (toParam before)) hr
        simp only [List.length_append, hfull] at h2
        omega
      | none =>
        rw [hlast] at hr
        dsimp only at hr
        exact absurd hr (by decide)

/-- When every upstream record carries a start time, the loop never
stops for lack of one. -/
theorem fetchAllAux_has_timestamps (fetch : Nat → Option Int → List Activity) (cap : Option Nat)
    (hts : ∀ i b a, a ∈ fetch i b → a.start_date.isSome = true) :
    ∀ fuel i before acc,
      (fetchAllAux fetch cap fuel i before acc).reason ≠ .noTimestamp := by
  intro fuel
  induction fuel with
  | zero => intro i before acc; simp [fetchAllAux]
  | succ f ih =>
    intro i before acc hr
    rw [fetchAllAux] at hr
    split_ifs at hr with hempty hcap hshort
    cases hlast : (fetch i (toParam before)).getLast?.bind (fun a => a.start_date) with
      | some ts =>
        rw [hlast] at hr
        dsimp only at hr
        exact ih (i + 1) (some ts) (acc ++ fetch i (toParam before)) hr
      | none =>
        cases hg : (fetch i (toParam before)).getLast? with
        | none =>
          rw [List.getLast?_eq_none_iff] at hg
          exact hempty hg
        | some a =>
          rw [hg] at hlast
          simp only [Option.some_bind] at hlast
          have hmem : a ∈ fetch i (toParam before) := List.mem_of_mem_getLast? (hg ▸ rfl)
          have := hts i (toParam before) a hmem
          rw [hlast] at this
          cases this

/-- C1: for every upstream honouring the 200-record page size,
`fetch_all_activities` returns at most 20000 records; with a non-zero
record cap the result never exceeds the cap and a cap-triggered stop has
length exactly the cap; exhausting the 100-iteration ceiling is a plain
return of exactly 20000 records (the function is total — a silent stop,
not an error); and when records carry start times the loop stops only for
one of the four claimed reasons: empty page, cap met, short page, or the
iteration ceiling. -/
theorem fetch_all_activities_bounds (fetch : Nat → Option Int → List Activity)
    (cap : Option Nat) (hlen : ∀ i b, (fetch i b).length ≤ 200) :
    (fetch_all_activities fetch cap).length ≤ 20000
  ∧ (∀ m, cap = some m → m ≠ 0 →
      (fetch_all_activities fetch cap).length ≤ m
      ∧ ((fetchAllAux fetch cap 100 0 none []).reason = .capReached →
          (fetch_all_activities fetch cap).length = m))
  ∧ ((fetchAllAux fetch cap 100 0 none []).reason = .iterCeiling →
      (fetch_all_activities fetch cap).length = 20000)
  ∧ ((∀ i b a, a ∈ fetch i b → a.start_date.isSome = true) →
      (fetchAllAux fetch cap 100 0 none []).reason = .emptyPage
      ∨ (fetchAllAux fetch cap 100 0 none []).reason = .capReached
      ∨ (fetchAllAux fetch cap 100 0 none []).reason = .shortPage
      ∨ (fetchAllAux fetch cap 100 0 none []).reason = .iterCeiling) := by
  refine ⟨?_, ?_, ?_, ?_⟩
  · have := fetchAllAux_length_le fetch cap hlen 100 0 none []
    simpa [fetch_all_activities] using this
  · intro m hcap hm
    subst hcap
    have := fetchAllAux_cap fetch m hm 100 0 none [] (by simpa using Nat.pos_of_ne_zero hm)
    exact ⟨this.1, this.2⟩
  · intro hr
    have := fetchAllAux_ceiling fetch cap hlen 100 0 none [] hr
    simpa [fetch_all_activities] using this
  · intro hts
    have hnot := fetchAllAux_has_timestamps fetch cap hts 100 0 none []
    cases hre : (fetchAllAux fetch cap 100 0 none []).reason with
    | emptyPage => exact Or.inl rfl
    | capReached => exact Or.inr (Or.inl rfl)
    | shortPage => exact Or.inr (Or.inr (Or.inl rfl))
    | noTimestamp => exact absurd hre hnot
    | iterCeiling => exact Or.inr (Or.inr (Or.inr rfl))

/-- Concrete instantiation of `fetch_all_activities_bounds` on an
upstream that always returns a single-record page. -/
theorem fetch_all_activities_bounds_instance :
    (fetch_all_activities (fun _ _ => [⟨some "Run", some 1, some 1, some 0, some 5⟩]) none).length
        ≤ 20000
  ∧ (∀ m, (none : Option Nat) = some m → m ≠ 0 →
      (fetch_all_activities (fun _ _ => [⟨some "Run", some 1, some 1, some 0, some 5⟩]) none).length ≤ m
      ∧ ((fetchAllAux (fun _ _ => [⟨some "Run", some 1, some 1, some 0, some 5⟩]) none 100 0 none []).reason = .capReached →
          (fetch_all_activities (fun _ _ => [⟨some "Run", some 1, some 1, some 0, some 5⟩]) none).length = m))
  ∧ ((fetchAllAux (fun _ _ => [⟨some "Run", some 1, some 1, some 0, some 5⟩]) none 100 0 none []).reason = .iterCeiling →
      (fetch_all_activities (fun _ _ => [⟨some "Run", some 1, some 1, some 0, some 5⟩]) none).length = 20000)
  ∧ ((∀ i b a, a ∈ (fun (_ : Nat) (_ : Option Int) => [(⟨some "Run", some 1, some 1, some 0, some 5⟩ : Activity)]) i b → a.start_date.isSome = true) →
      (fetchAllAux (fun _ _ => [⟨some "Run", some 1, some 1, some 0, some 5⟩]) none 100 0 none []).reason = .emptyPage
      ∨ (fetchAllAux (fun _ _ => [⟨some "Run", some 1, some 1, some 0, some 5⟩]) none 100 0 none []).reason = .capReached
      ∨ (fetchAllAux (fun _ _ => [⟨some "Run", some 1, some 1, some 0, some 5⟩]) none 100 0 none []).reason = .shortPage
      ∨ (fetchAllAux (fun _ _ => [⟨some "Run", some 1, some 1, some 0, some 5⟩]) none 100 0 none []).reason = .iterCeiling) :=
  fetch_all_activities_bounds (fun _ _ => [⟨some "Run", some 1, some 1, some 0, some 5⟩]) none
    (fun i b => by simp)

/-- Loop invariant for the cursor trace: starting from no cursor or a
positive one, consecutive requested cursors strictly decrease, and the
first request uses the current `before` state. -/
theorem fetchAllAux_cursor_chain (fetch : Nat → Option Int → List Activity) (cap : Option Nat)
    (honors : ∀ i t a, a ∈ fetch i (some t) → ∃ s, a.start_date = some s ∧ s < t)
    (pos : ∀ i b a, a ∈ fetch i b → ∀ s, a.start_date = some s → 0 < s) :
    ∀ fuel i before acc, (before = none ∨ ∃ t, before = some t ∧ 0 < t) →
      List.Chain' (fun c1 c2 => cursorStep c1 c2 = true)
        (fetchAllAux fetch cap fuel i before acc).cursors
      ∧ (∀ c, (fetchAllAux fetch cap fuel i before acc).cursors.head? = some c →
          c = toParam before) := by
  intro fuel
  induction fuel with
  | zero =>
    intro i before acc hb
    exact ⟨List.chain'_nil, fun c h => by cases h⟩
  | succ f ih =>
    intro i before acc hb
    rw [fetchAllAux]
    split_ifs with hempty hcap hshort
    · exact ⟨List.chain'_singleton _, fun c h => (Option.some.inj h).symm⟩
    · exact ⟨List.chain'_singleton _, fun c h => (Option.some.inj h).symm⟩
    · exact ⟨List.chain'_singleton _, fun c h => (Option.some.inj h).symm⟩
    · cases hlast : (fetch i (toParam before)).getLast?.bind (fun a => a.start_date) with
      | some ts =>
        dsimp only
        obtain ⟨a, hg, hsd⟩ : ∃ a, (fetch i (toParam before)).getLast? = some a
            ∧ a.start_date = some ts := by
          cases hg : (fetch i (toParam before)).getLast? with
          | none => rw [hg] at hlast; cases hlast
          | some a =>
            rw [hg] at hlast
            simp only [Option.some_bind] at hlast
            exact ⟨a, rfl, hlast⟩
        have hmem : a ∈ fetch i (toParam before) := List.mem_of_mem_getLast? (hg ▸ rfl)
        have hts_pos : 0 < ts := pos i (toParam before) a hmem ts hsd
        have hinv : (some ts : Option Int) = none ∨ ∃ t, (some ts : Option Int) = some t ∧ 0 < t :=
          Or.inr ⟨ts, rfl, hts_pos⟩
        obtain ⟨hchain, hhead⟩ := ih (i + 1) (some ts) (acc ++ fetch i (toParam before)) hinv
        constructor
        · cases hc : (fetchAllAux fetch cap f (i + 1) (some ts)
              (acc ++ fetch i (toParam before))).cursors with
          | nil => exact List.chain'_singleton _
          | cons c cs =>
            rw [hc] at hchain
            refine List.chain'_cons.mpr ⟨?_, hchain⟩
            have hceq : c = toParam (some ts) := hhead c (by rw [hc]; rfl)
            have htp : toParam (some ts) = some ts := by
              simp only [toParam, if_neg (by omega : ¬ts = 0)]
            rw [hceq, htp]
            rcases hb with hnone | ⟨t, hbt, htpos⟩
            · rw [hnone]
              rfl
            · subst hbt
              have htp2 : toParam (some t) = some t := by
                simp only [toParam, if_neg (by omega : ¬t = 0)]
              rw [htp2]
              have hmem2 : a ∈ fetch i (some t) := by rw [← htp2]; exact hmem
              obtain ⟨s, hs1, hs2⟩ := honors i t a hmem2
              have hst : s = ts := by
                rw [hs1] at hsd
                exact Option.some.inj hsd
              subst hst
              simp only [cursorStep, decide_eq_true_eq]
              exact hs2
        · intro c h
          exact (Option.some.inj h).symm
      | none =>
        exact ⟨List.chain'_singleton _, fun c h => (Option.some.inj h).symm⟩

/-- C4: across pagination iterations the requested `before` cursors
strictly decrease: after the unbounded first request, every later request
carries a cursor (the start time of the oldest record of the page just
received) strictly smaller than the previously requested one.  The
hypotheses say the upstream honours `before` semantics (returned records
start strictly before the cursor) and that start times are positive
Unix timestamps. -/
theorem pagination_cursor_strict_decrease (fetch : Nat → Option Int → List Activity)
    (cap : Option Nat)
    (honors : ∀ i t a, a ∈ fetch i (some t) → ∃ s, a.start_date = some s ∧ s < t)
    (pos : ∀ i b a, a ∈ fetch i b → ∀ s, a.start_date = some s → 0 < s) :
    List.Chain' (fun c1 c2 => cursorStep c1 c2 = true)
      (fetchAllAux fetch cap 100 0 none []).cursors :=
  (fetchAllAux_cursor_chain fetch cap honors pos 100 0 none [] (Or.inl rfl)).1

set_option maxRecDepth 8192 in
/-- Concrete instantiation of `pagination_cursor_strict_decrease` on
`demoUpstream`: the driver makes three requests whose cursor trace is
exactly `[none, some 100, some 50]` — two non-empty 200-record pages
followed by the empty stop — and the chain conclusion holds on that
strictly decreasing trace. -/
theorem pagination_cursor_strict_decrease_instance :
    (fetchAllAux demoUpstream none 100 0 none []).cursors = [none, some 100, some 50]
  ∧ List.Chain' (fun c1 c2 => cursorStep c1 c2 = true)
      (fetchAllAux demoUpstream none 100 0 none []).cursors := by
  constructor
  · decide
  · apply pagination_cursor_strict_decrease demoUpstream none
    · intro i t a ha
      dsimp only [demoUpstream] at ha
      split at ha
      · have hae := List.eq_of_mem_replicate ha
        subst hae
        exact ⟨50, rfl, by omega⟩
      · exact absurd ha (List.not_mem_nil a)
    · intro i b a ha s hs
      cases b with
      | none =>
        have hae := List.eq_of_mem_replicate ha
        subst hae
        simp only [Option.some.injEq] at hs
        omega
      | some t =>
        dsimp only [demoUpstream] at ha
        split at ha
        · have hae := List.eq_of_mem_replicate ha
          subst hae
          simp only [Option.some.injEq] at hs
          omega
        · exact absurd ha (List.not_mem_nil a)
